import Mathlib

/-!
# Verification of the kiara_modules.core file / file-bundle onboarding model

A shallow embedding of the `KiaraFile` / `KiaraFileBundle` metadata models of
`src/kiara_modules/core/metadata_schemas.py`, together with theorems settling
the specification claims about importing, copying, hashing and reading files
and file bundles.

Modelling conventions:
* bytes are `Nat` values `< 256`, byte strings are `List Nat`;
* the filesystem is an association list from absolute path strings to entries
  (regular files carrying their byte content, or directories); in this model
  all paths are absolute, `/`-separated and symlink-free, so `os.path.realpath`
  and `os.path.abspath` are the identity;
* Python exceptions are an explicit error type `PyErr`, and fallible
  operations return `Except PyErr`; an operation that changes the filesystem
  returns the new filesystem on success, so an `Except.error` result means no
  write happened;
* `datetime.datetime.now().isoformat()` is modelled by threading the current
  time string `now` explicitly.
-/

namespace KiaraCore

/-! ## Bytes, hex, and SHA3-256 (the `hashlib.sha3_256` primitive) -/

/-- 64-bit truncation. -/
def mask64 (x : Nat) : Nat := x % (2 ^ 64)

/-- Rotate a 64-bit lane left by `n` bits (`0 ≤ n < 64`). -/
def rotl64 (x n : Nat) : Nat := mask64 ((x <<< n) ||| (x >>> (64 - n)))

/-- 64-bit bitwise complement. -/
def not64 (x : Nat) : Nat := x ^^^ (2 ^ 64 - 1)

/-- The 8-bit LFSR of the Keccak round-constant schedule (polynomial
`x^8 + x^6 + x^5 + x^4 + 1`), after `t` steps from state `1`. -/
def keccakLfsr : Nat → Nat
  | 0 => 1
  | t + 1 =>
    let r := keccakLfsr t <<< 1
    if r &&& 0x100 = 0 then r else r ^^^ 0x171

/-- The 24 Keccak round constants, generated from the LFSR: bit `2^j - 1` of
round `i` is the LFSR output at time `j + 7*i`. -/
def keccakRC : List Nat :=
  (List.range 24).map fun i =>
    (List.range 7).foldl
      (fun acc j => acc ||| ((keccakLfsr (j + 7 * i) &&& 1) <<< (2 ^ j - 1))) 0

/-- Rho-step rotation offsets, indexed by lane `x + 5*y`: starting from lane
`(1,0)`, step `t` assigns offset `(t+1)(t+2)/2 mod 64` and moves to
`(y, 2x+3y)`. -/
def keccakRho : List Nat :=
  (((List.range 24).foldl
    (fun st t =>
      match st with
      | (x, y, acc) =>
        ((y, (2 * x + 3 * y) % 5, acc.set (x + 5 * y) (((t + 1) * (t + 2) / 2) % 64)) :
          Nat × Nat × List Nat))
    (1, 0, List.replicate 25 0)).2).2

/-- Lane accessor on a 25-lane state. -/
def lane (s : List Nat) (i : Nat) : Nat := s.getD i 0

/-- Keccak theta step. -/
def keccakTheta (a : List Nat) : List Nat :=
  let c := (List.range 5).map fun x =>
    lane a x ^^^ lane a (x + 5) ^^^ lane a (x + 10) ^^^ lane a (x + 15) ^^^ lane a (x + 20)
  let d := (List.range 5).map fun x =>
    (c.getD ((x + 4) % 5) 0) ^^^ rotl64 (c.getD ((x + 1) % 5) 0) 1
  (List.range 25).map fun i => lane a i ^^^ d.getD (i % 5) 0

/-- Keccak rho and pi steps combined: output lane `(x', y')` is the rotated
source lane `(x, y)` with `y = x'` and `x = 3*(y' - 3*x') mod 5`. -/
def keccakRhoPi (a : List Nat) : List Nat :=
  (List.range 25).map fun j =>
    let xo := j % 5
    let yo := j / 5
    let src := (3 * (yo + 15 - 3 * xo)) % 5 + 5 * xo
    rotl64 (lane a src) (keccakRho.getD src 0)

/-- Keccak chi step. -/
def keccakChi (b : List Nat) : List Nat :=
  (List.range 25).map fun j =>
    let x := j % 5
    let y := j / 5
    lane b j ^^^ (not64 (lane b ((x + 1) % 5 + 5 * y)) &&& lane b ((x + 2) % 5 + 5 * y))

/-- One Keccak round: theta, rho, pi, chi, iota. -/
def keccakRound (a : List Nat) (rc : Nat) : List Nat :=
  let b := keccakChi (keccakRhoPi (keccakTheta a))
  match b with
  | [] => []
  | l0 :: rest => (l0 ^^^ rc) :: rest

/-- The Keccak-f[1600] permutation (24 rounds). -/
def keccakF (a : List Nat) : List Nat := keccakRC.foldl keccakRound a

/-- Read one little-endian 64-bit lane from a byte list. -/
def laneOfBytes (bs : List Nat) : Nat :=
  bs.foldr (fun b acc => acc * 256 + b) 0

/-- XOR a 136-byte rate block into the first 17 lanes of the state. -/
def absorbBlock (s : List Nat) (block : List Nat) : List Nat :=
  let s' := (List.range 25).map fun i =>
    if i < 17 then lane s i ^^^ laneOfBytes ((block.drop (8 * i)).take 8) else lane s i
  keccakF s'

/-- Split a byte list into 136-byte blocks. -/
def toBlocks (bs : List Nat) : List (List Nat) :=
  match bs with
  | [] => []
  | b :: rest => ((b :: rest).take 136) :: toBlocks ((b :: rest).drop 136)
termination_by bs.length
decreasing_by simp [List.length_drop]; omega

/-- Little-endian bytes of one 64-bit lane. -/
def laneBytes (x : Nat) : List Nat :=
  (List.range 8).map fun i => (x >>> (8 * i)) % 256

/-- SHA3-256 of a byte string: pad with the SHA-3 domain suffix `0x06`
and `pad10*1`, absorb at rate 1088 bits, squeeze 32 bytes. -/
def sha3_256 (msg : List Nat) : List Nat :=
  let q := 136 - msg.length % 136
  let padded :=
    if q = 1 then msg ++ [0x86]
    else msg ++ (0x06 :: List.replicate (q - 2) 0) ++ [0x80]
  let final := (toBlocks padded).foldl absorbBlock (List.replicate 25 0)
  ((List.range 4).map fun i => laneBytes (lane final i)).foldr (· ++ ·) []

/-- Lowercase hex digit. -/
def hexChar (n : Nat) : Char :=
  if n < 10 then Char.ofNat (48 + n) else Char.ofNat (87 + n)

/-- Lowercase hex rendering of a byte string (`hexdigest`). -/
def bytesToHex (bs : List Nat) : String :=
  ⟨bs.foldr (fun b acc => hexChar (b / 16) :: hexChar (b % 16) :: acc) []⟩

/-- `hashlib.sha3_256(bs).hexdigest()`. -/
def sha3_256_hex (bs : List Nat) : String := bytesToHex (sha3_256 bs)

/-! ## UTF-8 encoding and decoding (`str.encode("utf-8")` and text-mode reads) -/

/-- UTF-8 encoding of a single code point. -/
def utf8EncodeChar (c : Char) : List Nat :=
  let n := c.toNat
  if n < 0x80 then [n]
  else if n < 0x800 then
    [0xC0 ||| (n >>> 6), 0x80 ||| (n &&& 0x3F)]
  else if n < 0x10000 then
    [0xE0 ||| (n >>> 12), 0x80 ||| ((n >>> 6) &&& 0x3F), 0x80 ||| (n &&& 0x3F)]
  else
    [0xF0 ||| (n >>> 18), 0x80 ||| ((n >>> 12) &&& 0x3F),
     0x80 ||| ((n >>> 6) &&& 0x3F), 0x80 ||| (n &&& 0x3F)]

/-- UTF-8 encoding of a string. -/
def utf8Encode (s : String) : List Nat :=
  s.data.foldr (fun c acc => utf8EncodeChar c ++ acc) []

/-- Is `b` a UTF-8 continuation byte? -/
def isCont (b : Nat) : Bool := 0x80 ≤ b && b < 0xC0

/-- One-byte-at-a-time strict UTF-8 decoder, modelling Python's `utf-8`
codec (it rejects stray continuation bytes, truncated sequences, overlong
encodings, surrogates and out-of-range code points). The state is the number
of continuation bytes still expected, the code-point bits collected so far,
and the smallest code point the current sequence is allowed to produce
(the overlong bound). A fresh state expects a lead byte. -/
def utf8Go : Nat → Nat → Nat → List Nat → Option (List Char)
  | 0, _, _, [] => some []
  | 0, _, _, b :: rest =>
    if b < 0x80 then (utf8Go 0 0 0 rest).map (Char.ofNat b :: ·)
    else if b < 0xC0 then none
    else if b < 0xE0 then utf8Go 1 (b - 0xC0) 0x80 rest
    else if b < 0xF0 then utf8Go 2 (b - 0xE0) 0x800 rest
    else if b < 0xF5 then utf8Go 3 (b - 0xF0) 0x10000 rest
    else none
  | _ + 1, _, _, [] => none
  | need + 1, val, minv, b :: rest =>
    if isCont b then
      let v := val * 64 + (b - 0x80)
      if need = 0 then
        if v < minv ∨ (0xD800 ≤ v ∧ v < 0xE000) ∨ 0x110000 ≤ v then none
        else (utf8Go 0 0 0 rest).map (Char.ofNat v :: ·)
      else utf8Go need v minv rest
    else none

def utf8DecodeChars (bs : List Nat) : Option (List Char) := utf8Go 0 0 0 bs


/-- Decode a byte string as UTF-8 text, `none` on a `UnicodeDecodeError`. -/
def utf8Decode (bs : List Nat) : Option String :=
  (utf8DecodeChars bs).map List.asString

/-- Split a byte string into the lines Python's file iterator yields: each
line keeps its trailing `\n` (byte `10`); a final line without a newline is
kept as-is. -/
def linesOfBytes : List Nat → List (List Nat)
  | [] => []
  | b :: rest =>
    if b = 10 then [b] :: linesOfBytes rest
    else
      match linesOfBytes rest with
      | [] => [[b]]
      | l :: ls => (b :: l) :: ls

/-! ## Path helpers (`os.path` on absolute, `/`-separated paths) -/

/-- Split a character list on `/`, keeping empty segments (like
`"/a/b".split("/") == ["", "a", "b"]`). -/
def splitOnSlash (l : List Char) : List (List Char) :=
  match l with
  | [] => [[]]
  | c :: rest =>
    let r := splitOnSlash rest
    if c = '/' then [] :: r
    else
      match r with
      | [] => [[c]]
      | s :: ss => (c :: s) :: ss

/-- `os.path.basename`: everything after the last `/`. -/
def basename (p : String) : String :=
  ⟨(splitOnSlash p.data).getLastD []⟩

/-- `os.path.dirname`: everything before the last `/`. -/
def dirname (p : String) : String :=
  ⟨List.intercalate ['/'] (splitOnSlash p.data).dropLast⟩

/-- `os.path.join` for an absolute head and relative tail, the only shape
this code joins. -/
def joinPath (a b : String) : String := a ++ "/" ++ b

/-- Python's `str.endswith`. -/
def endsWithPy (s suf : String) : Bool := suf.data.isSuffixOf s.data

/-- Python's `str.startswith`. -/
def startsWithPy (s pre : String) : Bool := pre.data.isPrefixOf s.data

/-- `os.path.relpath p base` for the shapes arising here: `p` equal to
`base` or strictly below it. Other inputs (which posixpath resolves with
`..` chains) do not occur in this development and are returned unchanged. -/
def os_relpath (p base : String) : String :=
  if p = base then "."
  else if startsWithPy p (base ++ "/") then ⟨p.data.drop (base.data.length + 1)⟩
  else p

/-- Python truthiness of an optional string argument: `None` and `""` are
falsy. -/
def pyOptStr (o : Option String) : Option String :=
  match o with
  | some s => if s = "" then none else some s
  | none => none

/-- Python truthiness of an optional list: `None` and `[]` are falsy. -/
def pyTruthyList (o : Option (List String)) : Bool :=
  match o with
  | none => false
  | some l => !l.isEmpty

/-! ## Filesystem model and Python errors -/

/-- A filesystem entry: a regular file with its byte content, or a
directory. -/
inductive FSEntry
  | fileE (bytes : List Nat)
  | dirE
deriving DecidableEq, Repr

/-- A filesystem: an association list from absolute paths to entries (the
first binding for a path wins). -/
abbrev FS := List (String × FSEntry)

/-- Look up the entry at a path. -/
def fsLookup (fs : FS) (p : String) : Option FSEntry :=
  match fs with
  | [] => none
  | (q, e) :: rest => if q = p then some e else fsLookup rest p

/-- `os.path.exists`. -/
def pathExists (fs : FS) (p : String) : Bool := (fsLookup fs p).isSome

/-- `os.path.isfile`. -/
def isFile (fs : FS) (p : String) : Bool :=
  match fsLookup fs p with
  | some (.fileE _) => true
  | _ => false

/-- `os.path.isdir`. -/
def isDir (fs : FS) (p : String) : Bool :=
  match fsLookup fs p with
  | some .dirE => true
  | _ => false

/-- `os.stat(p).st_size`: byte length of the file at `p` (0 if absent, which
cannot happen at the call sites, all guarded by `isfile`). -/
def statSize (fs : FS) (p : String) : Nat :=
  match fsLookup fs p with
  | some (.fileE bs) => bs.length
  | _ => 0

/-- `os.makedirs(d, exist_ok=True)`: materialize the directory entry if the
path is not yet present (ancestor creation is not observable through any
claim and is omitted). -/
def makedirs (fs : FS) (d : String) : FS :=
  if pathExists fs d then fs else (d, .dirE) :: fs

/-- `shutil.copy2 src dst`: bind `dst` to the bytes of `src` (call sites
guarantee `src` is an existing regular file). -/
def copyFileBytes (fs : FS) (src dst : String) : FS :=
  match fsLookup fs src with
  | some (.fileE bs) => (dst, .fileE bs) :: fs
  | _ => fs

/-- The Python exceptions this code can raise, by kind. -/
inductive PyErr
  | valueError (msg : String)
  | typeError (msg : String)
  | osError (msg : String)
  | runtimeError (msg : String)
  | unicodeDecodeError (msg : String)
  | exception (msg : String)
deriving DecidableEq, Repr

/-- Is an error a `ValueError`? -/
def PyErr.isValueError : PyErr → Bool
  | .valueError _ => true
  | _ => false

/-! ## `KiaraFile` (the `file` metadata model) -/

/-- Modelled from the spec: mime-type resolution order — filename-extension
table lookup, then content sniffing, then the literal fallback. The external
`mimetypes` and `filetype` libraries are not part of this repository; the
extension table is restricted to the extensions exercised here and the
sniffing stage never recognizes anything, falling through to the default. -/
def guess_mime_type (path : String) : String :=
  if endsWithPy path ".csv" then "text/csv"
  else if endsWithPy path ".txt" then "text/plain"
  else if endsWithPy path ".json" then "application/json"
  else "application/octet-stream"

/-- The `KiaraFile` metadata model. `fileHashCache` models the private
attribute `_file_hash` (the lazily memoized content hash);
`importTime` models the field `import_time`. -/
structure KiaraFile where
  orig_filename : String
  orig_path : Option String := none
  importTime : String
  mime_type : String
  file_name : String
  size : Nat
  path : String
  is_onboarded : Bool := false
  fileHashCache : Option String := none
deriving DecidableEq, Repr

/-- `KiaraFile.load_file`: read the metadata of a file from disk and
optionally copy it to a target location. Returns the record and the
filesystem after the copy; an `Except.error` result models a raised
exception before any filesystem write. -/
def load_file (fs : FS) (now : String) (source : String)
    (target : Option String := none) (incl_orig_path : Bool := false) :
    Except PyErr (KiaraFile × FS) :=
  if source = "" then .error (.valueError "No source path provided.")
  else if !pathExists fs source then .error (.valueError ("Path does not exist: " ++ source))
  else if !isFile fs source then .error (.valueError ("Path is not a file: " ++ source))
  else
    let orig_filename := basename source
    let orig_path := source
    let size := statSize fs source
    let mk : String → KiaraFile := fun p =>
      { orig_filename := orig_filename
        orig_path := if incl_orig_path then some orig_path else none
        importTime := now
        mime_type := guess_mime_type p
        size := size
        file_name := orig_filename
        path := p }
    match pyOptStr target with
    | some t =>
      if pathExists fs t then .error (.valueError ("Target path exists: " ++ t))
      else
        let fs' := copyFileBytes (makedirs fs (dirname t)) source t
        .ok (mk t, fs')
    | none => .ok (mk orig_path, fs)

/-- `KiaraFile.copy_file`: re-import `self.path` at `target`, then overlay
the identity fields and carry the memoized content hash forward. -/
def copy_file (fs : FS) (now : String) (self : KiaraFile) (target : String)
    (incl_orig_path : Bool := false) : Except PyErr (KiaraFile × FS) :=
  match load_file fs now self.path (some target) with
  | .error e => .error e
  | .ok (fm, fs') =>
    .ok ({ fm with
      orig_path := if incl_orig_path then self.orig_path else none
      orig_filename := self.orig_filename
      importTime := self.importTime
      fileHashCache :=
        match self.fileHashCache with
        | some h => some h
        | none => fm.fileHashCache }, fs')

/-- The `KiaraFile.file_hash` property: the memoized value when present,
otherwise the SHA3-256 hex digest of the bytes at `self.path` (the write of
the memo into the private attribute is a performance detail not threaded
back). `open` on a missing path or a directory raises an `OSError`. -/
def file_hash (fs : FS) (self : KiaraFile) : Except PyErr String :=
  match self.fileHashCache with
  | some h => .ok h
  | none =>
    match fsLookup fs self.path with
    | some (.fileE bs) => .ok (sha3_256_hex bs)
    | some .dirE => .error (.osError ("Is a directory: " ++ self.path))
    | none => .error (.osError ("No such file or directory: " ++ self.path))

/-- Result of `KiaraFile.read_content`: a `str` or a `bytes` value. -/
inductive ReadResult
  | pystr (s : String)
  | pybytes (bs : List Nat)
deriving DecidableEq, Repr

/-- `KiaraFile.read_content`: `if not max_lines` read the whole file, else
join the first `range(max_lines)` lines from the file iterator. A `next()`
past the end raises `StopIteration` inside the generator, which Python turns
into a `RuntimeError`; in binary mode `"".join` then raises a `TypeError` on
the first `bytes` line (after the generator has been consumed). -/
def read_content (fs : FS) (self : KiaraFile) (as_str : Bool := true)
    (max_lines : Int := -1) : Except PyErr ReadResult :=
  match fsLookup fs self.path with
  | none => .error (.osError ("No such file or directory: " ++ self.path))
  | some .dirE => .error (.osError ("Is a directory: " ++ self.path))
  | some (.fileE bs) =>
    if max_lines = 0 then
      if as_str then
        match utf8Decode bs with
        | some s => .ok (.pystr s)
        | none => .error (.unicodeDecodeError self.path)
      else .ok (.pybytes bs)
    else
      let ls := linesOfBytes bs
      let n := max_lines.toNat
      if n ≤ ls.length then
        if as_str then
          match utf8Decode ((ls.take n).foldr (· ++ ·) []) with
          | some s => .ok (.pystr s)
          | none => .error (.unicodeDecodeError self.path)
        else
          if n = 0 then .ok (.pystr "")
          else .error (.typeError "sequence item 0: expected str instance, bytes found")
      else .error (.runtimeError "generator raised StopIteration")

/-! ## Folder import configuration and filter policy -/

/-- Modelled from the spec: `kiara.defaults.DEFAULT_EXCLUDE_FILES`, the
standard ignore-list of VCS metadata and OS junk files (the `kiara` host
package is not part of this repository). No claim depends on its value. -/
def DEFAULT_EXCLUDE_FILES : List String := [".DS_Store"]

/-- The `FolderImportConfig` pydantic model. -/
structure FolderImportConfig where
  include_files : Option (List String) := none
  exclude_dirs : Option (List String) := none
  exclude_files : Option (List String) := some DEFAULT_EXCLUDE_FILES
deriving DecidableEq, Repr

/-- The `include_file` closure of `KiaraFileBundle.import_folder`:
`invalid_extensions` is the config's `exclude_files`, `valid_extensions` its
`include_files`; Python's `and` skips the exclusion check when the exclusion
list is `None` or empty (both falsy), and `not valid_extensions` includes
everything when the include list is `None` or empty. -/
def include_file (invalid_extensions valid_extensions : Option (List String))
    (filename : String) : Bool :=
  if pyTruthyList invalid_extensions
      && (invalid_extensions.getD []).any (fun ext => endsWithPy filename ext) then
    false
  else if !pyTruthyList valid_extensions then true
  else (valid_extensions.getD []).any (fun ext => endsWithPy filename ext)

/-! ## `KiaraFileBundle` (the `file_bundle` metadata model) -/

/-- First-match association-list lookup, modelling Python dict indexing
(`included_files[path]`); dict states never hold duplicate keys. -/
def lookupKey {α : Type} (k : String) : List (String × α) → Option α
  | [] => none
  | (q, v) :: rest => if q = k then some v else lookupKey k rest

/-- The keys of an association list, in insertion order (`dict.keys()`). -/
def keysOf {α : Type} (l : List (String × α)) : List String := l.map Prod.fst

/-- Python's `sorted` on strings: ascending lexicographic order on code
points. -/
def sortStrings (l : List String) : List String := List.insertionSort (· ≤ ·) l

/-- The `KiaraFileBundle` metadata model. `fileBundleHashCache` models the
private attribute `_file_bundle_hash`; `importTime` models `import_time`. -/
structure KiaraFileBundle where
  orig_bundle_name : String
  bundle_name : String
  orig_path : Option String := none
  importTime : String
  number_of_files : Nat
  included_files : List (String × KiaraFile)
  size : Nat
  path : String
  is_onboarded : Bool := false
  fileBundleHashCache : Option String := none
deriving DecidableEq, Repr

/-- `KiaraFileBundle.create_from_file_models`: pure constructor; stamps
`import_time` with the current time and sums the file sizes when `sum_size`
is `None`. -/
def create_from_file_models (now : String) (files : List (String × KiaraFile))
    (orig_bundle_name : String) (orig_path : Option String) (path : String)
    (sum_size : Option Nat := none) : KiaraFileBundle :=
  { included_files := files
    orig_path := orig_path
    path := path
    importTime := now
    number_of_files := files.length
    bundle_name := basename path
    orig_bundle_name := orig_bundle_name
    size :=
      match sum_size with
      | some s => s
      | none => files.foldl (fun acc kv => acc + kv.2.size) 0 }

/-- `KiaraFileBundle.get_relative_path`. -/
def get_relative_path (self : KiaraFileBundle) (file : KiaraFile) : String :=
  os_relpath file.path self.path

/-- The regular files `os.walk` visits below `source` after top-down pruning
of `exclude_dirs` and the `include_file` filter: a file survives iff none of
the directory components of its relative path is an excluded name and its
filename passes the filter. Traversal order is modelled by the filesystem's
enumeration order (Python's walk order is itself filesystem-dependent). -/
def bundleWalkFiles (fs : FS) (source : String)
    (exclude_dirs invalid_extensions valid_extensions : Option (List String)) :
    List String :=
  (fs.filterMap fun pe =>
    match pe.2 with
    | FSEntry.fileE _ => if startsWithPy pe.1 (source ++ "/") then some pe.1 else none
    | FSEntry.dirE => none).filter fun p =>
      let rel := os_relpath p source
      let parts := (splitOnSlash rel.data).map fun cs => (⟨cs⟩ : String)
      let dirsOk :=
        match exclude_dirs with
        | none => true
        | some ex => parts.dropLast.all fun d => !ex.contains d
      dirsOk && include_file invalid_extensions valid_extensions (basename p)

/-- `source[0:-1]` when the path ends with the separator. -/
def stripTrailingSlash (p : String) : String :=
  if endsWithPy p "/" then ⟨p.data.dropLast⟩ else p

/-- The per-file loop of `import_folder`: import each visited file (copying
it under `target` when given), accumulating the relative-path map and the
size sum; the walk list is taken from the filesystem snapshot at entry. -/
def importFilesGo (now : String) (source : String) (target : Option String)
    (incl_orig_path : Bool) :
    List String → FS → List (String × KiaraFile) → Nat →
    Except PyErr (List (String × KiaraFile) × Nat × FS)
  | [], fs, acc, sum => .ok (acc, sum, fs)
  | p :: ps, fs, acc, sum =>
    let rel_path := os_relpath p source
    let target_path := target.map fun t => joinPath t rel_path
    match load_file fs now p target_path incl_orig_path with
    | .error e => .error e
    | .ok (fm, fs') =>
      importFilesGo now source target incl_orig_path ps fs'
        (acc ++ [(rel_path, fm)]) (sum + fm.size)

/-- `KiaraFileBundle.import_folder`. The `typing.Mapping` coercion branch of
the Python code (and its `TypeError` for other types) concerns dynamic
typing and is not representable; the config argument is the already-typed
`FolderImportConfig`, defaulted when absent. -/
def import_folder (fs : FS) (now : String) (source : String)
    (target : Option String := none)
    (import_config : Option FolderImportConfig := none)
    (incl_orig_path : Bool := false) : Except PyErr (KiaraFileBundle × FS) :=
  if source = "" then .error (.valueError "No source path provided.")
  else if !pathExists fs source then
    .error (.valueError ("Path does not exist: " ++ source))
  else if !isDir fs source then
    .error (.valueError ("Path is not a file: " ++ source))
  else if (pyOptStr target).elim false (fun t => pathExists fs t) then
    .error (.valueError ("Target path already exists: " ++ (pyOptStr target).getD ""))
  else
    let source' := stripTrailingSlash source
    let target' := (pyOptStr target).map stripTrailingSlash
    let cfg := (import_config.getD {})
    let files := bundleWalkFiles fs source' cfg.exclude_dirs cfg.exclude_files cfg.include_files
    match importFilesGo now source' target' incl_orig_path files fs [] 0 with
    | .error e => .error e
    | .ok (included, sum_size, fs') =>
      let orig_bundle_name := basename source'
      let orig_path := if incl_orig_path then some source' else none
      let path := target'.getD source'
      .ok (create_from_file_models now included orig_bundle_name orig_path path
            (some sum_size), fs')

/-- The per-file loop of `read_text_file_contents`. The `open` call stands
outside the `try`, so an `OSError` opening the file propagates whether or
not `ignore_errors` is set; only failures while reading/decoding inside the
`try` are policy-controlled. -/
def readTextGo (fs : FS) (bundlePath : String) (ignore_errors : Bool) :
    List (String × KiaraFile) → List (String × String) →
    Except PyErr (List (String × String))
  | [], acc => .ok acc
  | (_, fm) :: rest, acc =>
    let rel_path := os_relpath fm.path bundlePath
    match fsLookup fs fm.path with
    | some (FSEntry.fileE bs) =>
      match utf8Decode bs with
      | some content =>
        readTextGo fs bundlePath ignore_errors rest (acc ++ [(rel_path, content)])
      | none =>
        if ignore_errors then readTextGo fs bundlePath ignore_errors rest acc
        else .error (.exception ("Can't read file (as text) '" ++ fm.path ++
          ": UnicodeDecodeError"))
    | some FSEntry.dirE => .error (.osError ("Is a directory: " ++ fm.path))
    | none => .error (.osError ("No such file or directory: " ++ fm.path))

/-- `KiaraFileBundle.read_text_file_contents`. -/
def read_text_file_contents (fs : FS) (self : KiaraFileBundle)
    (ignore_errors : Bool := false) : Except PyErr (List (String × String)) :=
  readTextGo fs self.path ignore_errors self.included_files []

/-- The accumulation loop of the `file_bundle_hash` property:
`for path in sorted(keys): hashes = hashes + "_" + path + "_" + fm.file_hash`. -/
def hashesGo (fs : FS) (files : List (String × KiaraFile)) :
    List String → String → Except PyErr String
  | [], acc => .ok acc
  | k :: ks, acc =>
    match lookupKey k files with
    | none => .error (.exception ("KeyError: " ++ k))
    | some fm =>
      match file_hash fs fm with
      | .error e => .error e
      | .ok h => hashesGo fs files ks (acc ++ "_" ++ k ++ "_" ++ h)

/-- The `KiaraFileBundle.file_bundle_hash` property: the memoized value when
present, otherwise SHA3-256 over the accumulated string (the memo write-back
is a performance detail not threaded back). -/
def file_bundle_hash (fs : FS) (self : KiaraFileBundle) : Except PyErr String :=
  match self.fileBundleHashCache with
  | some h => .ok h
  | none =>
    match hashesGo fs self.included_files (sortStrings (keysOf self.included_files)) "" with
    | .error e => .error e
    | .ok hashes => .ok (sha3_256_hex (utf8Encode hashes))

/-- Concatenation of a list of strings into one buffer. -/
def concatStrings (l : List String) : String := l.foldr (· ++ ·) ""

/-- The per-key pieces of the spec's bundle-hash formula: for each key, the
literal string `"_" + key + "_" + content_hash` of that file. -/
def specPieces (fs : FS) (files : List (String × KiaraFile)) :
    List String → Except PyErr (List String)
  | [] => .ok []
  | k :: ks =>
    match lookupKey k files with
    | none => .error (.exception ("KeyError: " ++ k))
    | some fm =>
      match file_hash fs fm with
      | .error e => .error e
      | .ok h =>
        match specPieces fs files ks with
        | .error e => .error e
        | .ok ps => .ok (("_" ++ k ++ "_" ++ h) :: ps)

/-- The bundle-hash formula in the words of the spec: for each key of
`included_files` in ascending lexicographic order, the literal string
`"_" + key + "_" + content_hash` of that file; all pieces concatenated into
one buffer, SHA3-256 over its UTF-8 encoding, hex digest. Stated separately
from the implementation's accumulator loop so the two can be compared. -/
def bundle_hash_spec (fs : FS) (self : KiaraFileBundle) : Except PyErr String :=
  match specPieces fs self.included_files (sortStrings (keysOf self.included_files)) with
  | .error e => .error e
  | .ok pieces => .ok (sha3_256_hex (utf8Encode (concatStrings pieces)))

/-- The realized `(relative path, content hash)` pairs of a bundle's
`included_files`, in insertion order: each file's `file_hash` accessor
value. -/
def bundleHashPairs (fs : FS) : List (String × KiaraFile) →
    Except PyErr (List (String × String))
  | [] => .ok []
  | kv :: rest =>
    match file_hash fs kv.2 with
    | .error e => .error e
    | .ok h =>
      match bundleHashPairs fs rest with
      | .error e => .error e
      | .ok ps => .ok ((kv.1, h) :: ps)

/-- The per-file loop of `copy_bundle`: each contained record is copied via
`copy_file` with its default `incl_orig_path=False`. -/
def copyBundleGo (now : String) (target_path : String) :
    List (String × KiaraFile) → FS → List (String × KiaraFile) →
    Except PyErr (List (String × KiaraFile) × FS)
  | [], fs, acc => .ok (acc, fs)
  | (rel_path, item) :: rest, fs, acc =>
    match copy_file fs now item (joinPath target_path rel_path) with
    | .error e => .error e
    | .ok (new_fm, fs') =>
      copyBundleGo now target_path rest fs' (acc ++ [(rel_path, new_fm)])

/-- `KiaraFileBundle.copy_bundle`. -/
def copy_bundle (fs : FS) (now : String) (self : KiaraFileBundle)
    (target_path : String) (incl_orig_path : Bool := false) :
    Except PyErr (KiaraFileBundle × FS) :=
  if target_path = self.path then
    .error (.exception ("Target path and current path are the same: " ++ target_path))
  else
    match copyBundleGo now target_path self.included_files fs [] with
    | .error e => .error e
    | .ok (result, fs') =>
      let orig_path := if incl_orig_path then self.orig_path else none
      let fb := create_from_file_models now result self.orig_bundle_name orig_path
        target_path (some self.size)
      let fb' :=
        { fb with fileBundleHashCache :=
            match self.fileBundleHashCache with
            | some h => some h
            | none => fb.fileBundleHashCache }
      .ok (fb', fs')

/-! ## Derived observations used to state the claims -/

/-- Does a result model a raised `ValueError`? -/
def raisesValueError {α : Type} : Except PyErr α → Bool
  | .error (.valueError _) => true
  | _ => false

/-- Did the operation succeed (no exception raised)? -/
def isOkE {α : Type} : Except PyErr α → Bool
  | .ok _ => true
  | .error _ => false

/-- Decidable equality on results, for evaluating concrete runs. -/
instance {ε α : Type} [DecidableEq ε] [DecidableEq α] : DecidableEq (Except ε α) :=
  fun x y =>
  match x, y with
  | .ok a, .ok b =>
    match decEq a b with
    | isTrue h => isTrue (h ▸ rfl)
    | isFalse h => isFalse fun hc => h (Except.ok.inj hc)
  | .error e, .error f =>
    match decEq e f with
    | isTrue h => isTrue (h ▸ rfl)
    | isFalse h => isFalse fun hc => h (Except.error.inj hc)
  | .ok _, .error _ => isFalse fun hc => Except.noConfusion hc
  | .error _, .ok _ => isFalse fun hc => Except.noConfusion hc

/-- The bytes of the regular file at `p`, if any. -/
def fileBytesAt (fs : FS) (p : String) : Option (List Nat) :=
  match fsLookup fs p with
  | some (.fileE bs) => some bs
  | _ => none

/-- The UTF-8 decoded content of the regular file at `p`, if it exists and
decodes. -/
def decodedAt (fs : FS) (p : String) : Option String :=
  (fileBytesAt fs p).bind utf8Decode

/-- The text-read results the spec describes for `ignore_errors=true`: the
`(relative path, content)` pairs of the decodable files, in bundle order,
the failing files omitted. -/
def skipFailed (fs : FS) (bundlePath : String) (files : List (String × KiaraFile)) :
    List (String × String) :=
  files.filterMap fun kv =>
    (decodedAt fs kv.2.path).map fun c => (os_relpath kv.2.path bundlePath, c)

/-- `k` copies of the two-byte line `"x\n"`, as bytes. -/
def xnBytes (k : Nat) : List Nat := (List.replicate k ([120, 10] : List Nat)).flatten

/-- `k` copies of the two-character line `"x\n"`, as a string. -/
def xnString (k : Nat) : String := ⟨(List.replicate k (['x', '\n'] : List Char)).flatten⟩

/-! ## Concrete fixtures for witnesses and counterexamples -/

/-- A small filesystem: a source folder with two one-line text files, and an
already-existing directory `/t`. -/
def fsEx : FS :=
  [("/data", .dirE), ("/data/a.txt", .fileE [97, 10]),
   ("/data/b.txt", .fileE [98, 10]), ("/t", .dirE)]

/-- Record for `/data/a.txt`. -/
def fileA : KiaraFile :=
  { orig_filename := "a.txt", importTime := "t0", mime_type := "text/plain"
    file_name := "a.txt", size := 2, path := "/data/a.txt" }

/-- Record for `/data/b.txt`. -/
def fileB : KiaraFile :=
  { orig_filename := "b.txt", importTime := "t0", mime_type := "text/plain"
    file_name := "b.txt", size := 2, path := "/data/b.txt" }

/-- Record whose path `/data/c.txt` does not exist on `fsEx`. -/
def fileC : KiaraFile :=
  { orig_filename := "c.txt", importTime := "t0", mime_type := "text/plain"
    file_name := "c.txt", size := 2, path := "/data/c.txt" }

/-- A bundle over `/data` with the two existing files. -/
def bundleEx : KiaraFileBundle :=
  { orig_bundle_name := "data", bundle_name := "data", importTime := "t0"
    number_of_files := 2, included_files := [("a.txt", fileA), ("b.txt", fileB)]
    size := 4, path := "/data" }

/-- A bundle over `/data` containing a record whose file is gone from disk. -/
def bundleMissing : KiaraFileBundle :=
  { orig_bundle_name := "data", bundle_name := "data", importTime := "t0"
    number_of_files := 1, included_files := [("c.txt", fileC)]
    size := 2, path := "/data" }

/-- `fileA` with its content hash already memoized. -/
def fileA1 : KiaraFile := { fileA with fileHashCache := some "ha" }

/-- `fileB` with its content hash already memoized. -/
def fileB1 : KiaraFile := { fileB with fileHashCache := some "hb" }

/-- A bundle whose files were inserted in order `a.txt, b.txt`. -/
def bundleP : KiaraFileBundle :=
  { bundleEx with included_files := [("a.txt", fileA1), ("b.txt", fileB1)] }

/-- The same mapping inserted in the opposite order `b.txt, a.txt`. -/
def bundleQ : KiaraFileBundle :=
  { bundleEx with included_files := [("b.txt", fileB1), ("a.txt", fileA1)] }

/-- Record for a binary file whose bytes are not valid UTF-8. -/
def fileBin : KiaraFile :=
  { orig_filename := "bin.dat", importTime := "t0"
    mime_type := "application/octet-stream", file_name := "bin.dat"
    size := 1, path := "/data/bin.dat" }

/-- `fsEx` extended with the undecodable binary file. -/
def fsBad : FS := ("/data/bin.dat", .fileE [0xFF]) :: fsEx

/-- A one-file filesystem parameterized by the file's bytes. -/
def fsSingle (bs : List Nat) : FS := [("/f", .fileE bs)]

/-- A record for the single file of `fsSingle`. -/
def fileX : KiaraFile :=
  { orig_filename := "f", importTime := "t0", mime_type := "application/octet-stream"
    file_name := "f", size := 1, path := "/f" }

/-- A bundle holding one decodable and one undecodable file. -/
def bundleBad : KiaraFileBundle :=
  { bundleEx with
    number_of_files := 2
    included_files := [("a.txt", fileA), ("bin.dat", fileBin)]
    size := 3 }

/-! # Theorems -/

/-! ## Auxiliary lemmas -/

theorem pyOptStr_some_of_ne {t : String} (h : t ≠ "") :
    pyOptStr (some t) = some t := by
  simp [pyOptStr, h]

/-- **C3**: during folder import, a candidate filename is included iff it
does not end with any exclude suffix AND (no include suffix is specified —
the include list is absent or empty, both falsy in Python — or it ends with
some include suffix); in particular, a filename matching both an include and
an exclude suffix is excluded. -/
theorem include_file_eq (invalid valid : Option (List String)) (f : String) :
    include_file invalid valid f =
      (!(invalid.getD []).any (fun ext => endsWithPy f ext) &&
        ((valid.getD []).isEmpty || (valid.getD []).any (fun ext => endsWithPy f ext))) := by
  have hv : ∀ c : Bool, (if c = true then true
      else (valid.getD []).any (fun ext => endsWithPy f ext)) =
      (c || (valid.getD []).any (fun ext => endsWithPy f ext)) := by
    intro c; cases c <;> simp
  unfold include_file pyTruthyList
  rcases invalid with _ | il
  · rcases valid with _ | vl
    · simp
    · simp only [Option.getD_some, Option.getD_none, List.any_nil, Bool.not_false,
        Bool.true_and, Bool.not_eq_true']
      cases hvl : vl.isEmpty <;> simp [hvl]
  · rcases il with _ | ⟨a, as⟩
    · rcases valid with _ | vl
      · simp
      · simp only [Option.getD_some, List.isEmpty_nil, Bool.not_true, Bool.false_and,
          Bool.false_eq_true, if_false, List.any_nil, Bool.not_false, Bool.true_and,
          Bool.not_eq_true']
        cases hvl : vl.isEmpty <;> simp [hvl]
    · simp only [Option.getD_some, List.isEmpty_cons, Bool.not_false, Bool.true_and]
      cases hany : (a :: as).any (fun ext => endsWithPy f ext)
      · simp only [Bool.false_eq_true, if_false, Bool.not_false, Bool.true_and]
        rcases valid with _ | vl
        · simp
        · simp only [Option.getD_some, Bool.not_eq_true']
          cases hvl : vl.isEmpty <;> simp [hvl]
      · simp

/-- **C3**: during folder import, a candidate filename is included iff it
does not end with any exclude suffix AND (no include suffix is specified —
the include list is absent or empty, both falsy in Python — or it ends with
some include suffix); in particular, a filename matching both an include and
an exclude suffix is excluded. -/
theorem include_file_spec (invalid valid : Option (List String)) (f : String) :
    (include_file invalid valid f = true ↔
      ((∀ ext ∈ invalid.getD [], endsWithPy f ext = false) ∧
        (valid.getD [] = [] ∨ ∃ ext ∈ valid.getD [], endsWithPy f ext = true))) ∧
    ((∃ ext ∈ invalid.getD [], endsWithPy f ext = true) →
      include_file invalid valid f = false) := by
  constructor
  · rw [include_file_eq]
    simp only [Bool.and_eq_true, Bool.or_eq_true, Bool.not_eq_true',
      List.any_eq_true, List.isEmpty_iff]
    constructor
    · rintro ⟨h1, h2⟩
      constructor
      · intro ext hmem
        by_cases he : endsWithPy f ext = true
        · exact absurd (List.any_eq_true.mpr ⟨ext, hmem, he⟩) (by simp [h1])
        · simpa using he
      · exact h2
    · rintro ⟨h1, h2⟩
      refine ⟨?_, h2⟩
      rw [List.any_eq_false]
      intro ext hmem
      simp [h1 ext hmem]
  · rintro ⟨ext, hmem, hends⟩
    rw [include_file_eq]
    have : (invalid.getD []).any (fun e => endsWithPy f e) = true :=
      List.any_eq_true.mpr ⟨ext, hmem, hends⟩
    simp [this]

/-- **C3 witness**: a filename matching both the include suffix and the
exclude suffix is excluded. -/
theorem include_file_spec_witness :
    include_file (some [".log"]) (some [".log"]) "run.log" = false :=
  (include_file_spec (some [".log"]) (some [".log"]) "run.log").2
    ⟨".log", by decide, by decide⟩

/-- **C7**: every violation of the four `load_file` preconditions — empty
source argument, nonexistent source path, source not a regular file, or a
(truthy) explicit target that already exists — makes `load_file` raise a
`ValueError`, never a generic exception. -/
theorem load_file_precondition_valueError (fs : FS) (now source : String)
    (target : Option String) (flag : Bool)
    (h : source = "" ∨ pathExists fs source = false ∨ isFile fs source = false ∨
      ∃ t, pyOptStr target = some t ∧ pathExists fs t = true) :
    raisesValueError (load_file fs now source target flag) = true := by
  unfold load_file
  by_cases h1 : source = ""
  · simp [h1, raisesValueError]
  · rw [if_neg h1]
    cases h2 : pathExists fs source with
    | false => simp [raisesValueError]
    | true =>
      cases h3 : isFile fs source with
      | false => simp [raisesValueError]
      | true =>
        rcases h with h | h | h | ⟨t, ht, hex⟩
        · exact absurd h h1
        · rw [h2] at h; cases h
        · rw [h3] at h; cases h
        · simp only [Bool.not_true, Bool.false_eq_true, if_false, ht, hex, if_true]
          simp [raisesValueError]

/-- **C7 witness**: importing an existing regular file onto an existing
target raises a `ValueError`. -/
theorem load_file_precondition_valueError_witness :
    raisesValueError (load_file fsEx "t1" "/data/a.txt" (some "/t") false) = true :=
  load_file_precondition_valueError fsEx "t1" "/data/a.txt" (some "/t") false
    (Or.inr (Or.inr (Or.inr ⟨"/t", by decide, by decide⟩)))

/-- On success with a nonempty explicit target, `load_file` returns a record
homed at the target with no memoized hash yet. -/
theorem load_file_ok_path (fs : FS) (now source t : String) (flag : Bool)
    (fm : KiaraFile) (fs' : FS) (ht : t ≠ "")
    (h : load_file fs now source (some t) flag = .ok (fm, fs')) :
    fm.path = t ∧ fm.fileHashCache = none := by
  by_cases h1 : source = ""
  · simp [load_file, h1] at h
  · cases h2 : pathExists fs source with
    | false => simp [load_file, h1, h2] at h
    | true =>
      cases h3 : isFile fs source with
      | false => simp [load_file, h1, h2, h3] at h
      | true =>
        cases h4 : pathExists fs t with
        | true => simp [load_file, h1, h2, h3, h4, pyOptStr_some_of_ne ht] at h
        | false =>
          simp only [load_file, h1, h2, h3, h4, pyOptStr_some_of_ne ht,
            Bool.not_true, Bool.false_eq_true, if_false, Except.ok.injEq,
            Prod.mk.injEq] at h
          obtain ⟨hfm, _⟩ := h
          subst hfm
          exact ⟨rfl, rfl⟩

/-- **C5**: a successful `copy_file` to a fresh (nonempty) target yields a
record with the source's `orig_filename` and `import_time`; its `orig_path`
equals the source's when `incl_orig_path` is set and is `None` otherwise;
its `path` is the new target; and the source's memoized content hash is
carried forward verbatim when present. -/
theorem copy_file_preserves_identity (fs : FS) (now : String) (self : KiaraFile)
    (target : String) (flag : Bool) (fm : KiaraFile) (fs' : FS)
    (ht : target ≠ "")
    (h : copy_file fs now self target flag = .ok (fm, fs')) :
    fm.orig_filename = self.orig_filename ∧
    fm.importTime = self.importTime ∧
    (flag = true → fm.orig_path = self.orig_path) ∧
    (flag = false → fm.orig_path = none) ∧
    fm.path = target ∧
    (∀ h0 : String, self.fileHashCache = some h0 → fm.fileHashCache = some h0) := by
  unfold copy_file at h
  cases hres : load_file fs now self.path (some target) false with
  | error e => rw [hres] at h; cases h
  | ok pr =>
    obtain ⟨fm0, fs1⟩ := pr
    rw [hres] at h
    simp only [Except.ok.injEq, Prod.mk.injEq] at h
    obtain ⟨hfm, _⟩ := h
    have hpath := load_file_ok_path fs now self.path target false fm0 fs1 ht hres
    subst hfm
    refine ⟨rfl, rfl, ?_, ?_, ?_, ?_⟩
    · intro hf; simp [hf]
    · intro hf; simp [hf]
    · simpa using hpath.1
    · intro h0 hself; simp [hself]

/-- **C5 witness**: copying `/data/a.txt` (with a memoized hash) to the
fresh target `/arch/a.txt` preserves the identity fields. -/
theorem copy_file_preserves_identity_witness :
    ∃ fm fs',
      copy_file fsEx "t9" fileA1 "/arch/a.txt" true = .ok (fm, fs') ∧
      (fm.orig_filename = fileA1.orig_filename ∧
        fm.importTime = fileA1.importTime ∧
        (true = true → fm.orig_path = fileA1.orig_path) ∧
        (true = false → fm.orig_path = none) ∧
        fm.path = "/arch/a.txt" ∧
        (∀ h0 : String, fileA1.fileHashCache = some h0 → fm.fileHashCache = some h0)) := by
  refine ⟨_, _, rfl, ?_⟩
  exact copy_file_preserves_identity fsEx "t9" fileA1 "/arch/a.txt" true _ _
    (by decide) rfl

/-- **C4 counterexample**: the claim covers every import *or copy* with an
existing explicit target, but `copy_bundle` checks only `target == self.path`:
copying a bundle onto the already-existing directory `/t` (whose per-file
target paths are free) succeeds instead of failing. -/
theorem exists_guard_counterexample :
    pathExists fsEx "/t" = true ∧
    isOkE (copy_bundle fsEx "t1" bundleEx "/t" false) = true := by decide

/-- **C4 (amended)**: file import (`load_file`), folder import
(`import_folder`) and single-file copy (`copy_file`) onto an existing
(truthy) target always fail with a `ValueError`; the error is raised before
any filesystem write (an error result carries no updated filesystem).
`copy_bundle` has no such guard: it only rejects `target == self.path`. -/
theorem exists_guard_amended (fs : FS) (now source target : String)
    (flag : Bool) (self : KiaraFile) (cfg : Option FolderImportConfig)
    (ht : target ≠ "") (hex : pathExists fs target = true) :
    raisesValueError (load_file fs now source (some target) flag) = true ∧
    raisesValueError (import_folder fs now source (some target) cfg flag) = true ∧
    raisesValueError (copy_file fs now self target flag) = true := by
  refine ⟨?_, ?_, ?_⟩
  · exact load_file_precondition_valueError fs now source (some target) flag
      (Or.inr (Or.inr (Or.inr ⟨target, pyOptStr_some_of_ne ht, hex⟩)))
  · unfold import_folder
    by_cases h1 : source = ""
    · simp [h1, raisesValueError]
    · rw [if_neg h1]
      cases h2 : pathExists fs source with
      | false => simp [raisesValueError]
      | true =>
        cases h3 : isDir fs source with
        | false => simp [raisesValueError]
        | true =>
          simp [pyOptStr_some_of_ne ht, hex, raisesValueError]
  · have hv := load_file_precondition_valueError fs now self.path (some target) false
      (Or.inr (Or.inr (Or.inr ⟨target, pyOptStr_some_of_ne ht, hex⟩)))
    unfold copy_file
    cases hres : load_file fs now self.path (some target) false with
    | error e =>
      rw [hres] at hv
      simpa [raisesValueError] using hv
    | ok pr =>
      rw [hres] at hv
      simp [raisesValueError] at hv

/-- **C4 (amended) witness**: importing or copying `/data/a.txt` onto the
existing target `/t` fails with a `ValueError` in all three operations. -/
theorem exists_guard_amended_witness :
    raisesValueError (load_file fsEx "t1" "/data" (some "/t") false) = true ∧
    raisesValueError (import_folder fsEx "t1" "/data" (some "/t") none false) = true ∧
    raisesValueError (copy_file fsEx "t1" fileA "/t" false) = true :=
  exists_guard_amended fsEx "t1" "/data" "/t" false fileA none
    (by decide) (by decide)

/-- **C6 counterexample**: `copy_bundle` builds its result through
`create_from_file_models`, which stamps a *fresh* `import_time`: copying the
bundle imported at `"t0"` at time `"t1"` yields `import_time = "t1"`, not
the original's. -/
theorem copy_bundle_import_time_counterexample :
    bundleEx.importTime = "t0" ∧ ("t1" : String) ≠ "t0" ∧
    (copy_bundle fsEx "t1" bundleEx "/u" false).toOption.map
      (fun r => r.1.importTime) = some "t1" := by decide

/-- **C6 (amended)**: the bundle record produced by a successful
`copy_bundle` carries the timestamp of the copy operation itself (the
`create_from_file_models` call stamps `now`), not the source bundle's
`import_time`. -/
theorem copy_bundle_stamps_copy_time (fs : FS) (now : String)
    (self : KiaraFileBundle) (target : String) (flag : Bool)
    (fb : KiaraFileBundle) (fs' : FS)
    (h : copy_bundle fs now self target flag = .ok (fb, fs')) :
    fb.importTime = now := by
  unfold copy_bundle at h
  by_cases h1 : target = self.path
  · simp [h1] at h
  · rw [if_neg h1] at h
    cases hres : copyBundleGo now target self.included_files fs [] with
    | error e => rw [hres] at h; cases h
    | ok pr =>
      obtain ⟨result, fs1⟩ := pr
      rw [hres] at h
      simp only [Except.ok.injEq, Prod.mk.injEq] at h
      obtain ⟨hfb, _⟩ := h
      subst hfb
      rfl

/-- **C6 (amended) witness**: the copy made at `"t1"` is stamped `"t1"`. -/
theorem copy_bundle_stamps_copy_time_witness :
    ∃ fb fs', copy_bundle fsEx "t1" bundleEx "/u" false = .ok (fb, fs') ∧
      fb.importTime = "t1" := by
  refine ⟨_, _, rfl, ?_⟩
  exact copy_bundle_stamps_copy_time fsEx "t1" bundleEx "/u" false _ _ rfl

/-- A `copy_file` with `incl_orig_path = false` (its default) always clears
`orig_path` on the copy. -/
theorem copy_file_orig_path_none (fs : FS) (now : String) (item : KiaraFile)
    (t : String) (fm : KiaraFile) (fs' : FS)
    (h : copy_file fs now item t false = .ok (fm, fs')) :
    fm.orig_path = none := by
  unfold copy_file at h
  cases hres : load_file fs now item.path (some t) false with
  | error e => rw [hres] at h; cases h
  | ok pr =>
    obtain ⟨fm0, fs1⟩ := pr
    rw [hres] at h
    simp only [Except.ok.injEq, Prod.mk.injEq] at h
    obtain ⟨hfm, _⟩ := h
    subst hfm
    rfl

/-- Loop invariant for `copyBundleGo`: every produced record has a cleared
`orig_path`, because each is made by `copy_file` at its default flag. -/
theorem copyBundleGo_orig_path_none (now target : String) :
    ∀ (files : List (String × KiaraFile)) (fs : FS)
      (acc : List (String × KiaraFile)),
      (∀ kv ∈ acc, kv.2.orig_path = none) →
      ∀ res, copyBundleGo now target files fs acc = .ok res →
      ∀ kv ∈ res.1, kv.2.orig_path = none := by
  intro files
  induction files with
  | nil =>
    intro fs acc hacc res h kv hm
    simp only [copyBundleGo, Except.ok.injEq] at h
    subst h
    exact hacc kv hm
  | cons hd tl ih =>
    intro fs acc hacc res h kv hm
    obtain ⟨rel, item⟩ := hd
    unfold copyBundleGo at h
    cases hres : copy_file fs now item (joinPath target rel) false with
    | error e => rw [hres] at h; cases h
    | ok pr =>
      obtain ⟨new_fm, fs1⟩ := pr
      rw [hres] at h
      refine ih fs1 (acc ++ [(rel, new_fm)]) ?_ res h kv hm
      intro kv' hm'
      rcases List.mem_append.mp hm' with hl | hr
      · exact hacc kv' hl
      · have : kv' = (rel, new_fm) := by simpa using hr
        subst this
        exact copy_file_orig_path_none fs now item (joinPath target rel) new_fm fs1 hres

/-- **C10**: every file record contained in the bundle produced by
`copy_bundle` has `orig_path = None`, regardless of the `incl_orig_path`
flag passed to the bundle copy (which only controls the bundle-level
`orig_path`), because each contained file is copied by `copy_file` without
forwarding the flag. -/
theorem copy_bundle_files_orig_path_none (fs : FS) (now : String)
    (self : KiaraFileBundle) (target : String) (flag : Bool)
    (fb : KiaraFileBundle) (fs' : FS)
    (h : copy_bundle fs now self target flag = .ok (fb, fs')) :
    ∀ kv ∈ fb.included_files, kv.2.orig_path = none := by
  unfold copy_bundle at h
  by_cases h1 : target = self.path
  · simp [h1] at h
  · rw [if_neg h1] at h
    cases hres : copyBundleGo now target self.included_files fs [] with
    | error e => rw [hres] at h; cases h
    | ok pr =>
      obtain ⟨result, fs1⟩ := pr
      rw [hres] at h
      simp only [Except.ok.injEq, Prod.mk.injEq] at h
      obtain ⟨hfb, _⟩ := h
      subst hfb
      intro kv hm
      exact copyBundleGo_orig_path_none now target self.included_files fs []
        (by simp) (result, fs1) hres kv hm

/-- **C10 witness**: copying a bundle with `incl_orig_path = true` still
clears `orig_path` on every contained file record. -/
theorem copy_bundle_files_orig_path_none_witness :
    ∃ fb fs', copy_bundle fsEx "t1" bundleEx "/v" true = .ok (fb, fs') ∧
      ∀ kv ∈ fb.included_files, kv.2.orig_path = none := by
  refine ⟨_, _, rfl, ?_⟩
  exact copy_bundle_files_orig_path_none fsEx "t1" bundleEx "/v" true _ _ rfl

/-- An `isFile` fact yields the file's bytes. -/
theorem isFile_bytes {fs : FS} {p : String} (h : isFile fs p = true) :
    ∃ bs, fsLookup fs p = some (.fileE bs) := by
  unfold isFile at h
  cases hcase : fsLookup fs p with
  | none => rw [hcase] at h; cases h
  | some e =>
    cases e with
    | fileE bs => exact ⟨bs, rfl⟩
    | dirE => rw [hcase] at h; cases h

/-- With `ignore_errors = true` and every file openable, the text-read loop
succeeds and returns exactly the decodable files' contents, skipping the
rest. -/
theorem readTextGo_ignore_skips (fs : FS) (bp : String) :
    ∀ (files : List (String × KiaraFile)) (acc : List (String × String)),
      (∀ kv ∈ files, isFile fs kv.2.path = true) →
      readTextGo fs bp true files acc = .ok (acc ++ skipFailed fs bp files) := by
  intro files
  induction files with
  | nil => intro acc _; simp [readTextGo, skipFailed]
  | cons hd tl ih =>
    intro acc hopen
    obtain ⟨k, fm⟩ := hd
    obtain ⟨bs, hbs⟩ := isFile_bytes (hopen (k, fm) (List.mem_cons_self _ _))
    have htl : ∀ kv ∈ tl, isFile fs kv.2.path = true := fun kv hm =>
      hopen kv (List.mem_cons_of_mem _ hm)
    cases hdec : utf8Decode bs with
    | some content =>
      simp only [readTextGo, hbs, hdec]
      rw [ih (acc ++ [(os_relpath fm.path bp, content)]) htl]
      simp [skipFailed, decodedAt, fileBytesAt, hbs, hdec]
    | none =>
      simp only [readTextGo, hbs, hdec, if_true]
      rw [ih acc htl]
      simp [skipFailed, decodedAt, fileBytesAt, hbs, hdec]

/-- With `ignore_errors = false` and every file decodable, the text-read
loop succeeds with all contents. -/
theorem readTextGo_strict_ok (fs : FS) (bp : String) :
    ∀ (files : List (String × KiaraFile)) (acc : List (String × String)),
      (∀ kv ∈ files, (decodedAt fs kv.2.path).isSome = true) →
      readTextGo fs bp false files acc = .ok (acc ++ skipFailed fs bp files) := by
  intro files
  induction files with
  | nil => intro acc _; simp [readTextGo, skipFailed]
  | cons hd tl ih =>
    intro acc hdec
    obtain ⟨k, fm⟩ := hd
    have hhd : (decodedAt fs fm.path).isSome = true :=
      hdec (k, fm) (List.mem_cons_self _ _)
    obtain ⟨c, hc⟩ := Option.isSome_iff_exists.mp hhd
    obtain ⟨bs, hbs, hdc⟩ : ∃ bs, fsLookup fs fm.path = some (.fileE bs) ∧
        utf8Decode bs = some c := by
      unfold decodedAt fileBytesAt at hc
      cases hcase : fsLookup fs fm.path with
      | none => rw [hcase] at hc; cases hc
      | some e =>
        cases e with
        | fileE bs => rw [hcase] at hc; exact ⟨bs, rfl, by simpa using hc⟩
        | dirE => rw [hcase] at hc; cases hc
    simp only [readTextGo, hbs, hdc]
    rw [ih (acc ++ [(os_relpath fm.path bp, c)])
      (fun kv hm => hdec kv (List.mem_cons_of_mem _ hm))]
    simp [skipFailed, decodedAt, fileBytesAt, hbs, hdc]

/-- With `ignore_errors = false`, every file openable and some file
undecodable, the text-read loop fails with the generic `Exception` naming
the first undecodable file and the cause. -/
theorem readTextGo_strict_fails (fs : FS) (bp : String) :
    ∀ (files : List (String × KiaraFile)) (acc : List (String × String)),
      (∀ kv ∈ files, isFile fs kv.2.path = true) →
      (∃ kv ∈ files, decodedAt fs kv.2.path = none) →
      ∃ kv ∈ files, decodedAt fs kv.2.path = none ∧
        readTextGo fs bp false files acc =
          .error (.exception ("Can't read file (as text) '" ++ kv.2.path ++
            ": UnicodeDecodeError")) := by
  intro files
  induction files with
  | nil => rintro acc _ ⟨kv, hm, _⟩; cases hm
  | cons hd tl ih =>
    intro acc hopen hfail
    obtain ⟨k, fm⟩ := hd
    obtain ⟨bs, hbs⟩ := isFile_bytes (hopen (k, fm) (List.mem_cons_self _ _))
    cases hdec : utf8Decode bs with
    | none =>
      refine ⟨(k, fm), List.mem_cons_self _ _, ?_, ?_⟩
      · simp [decodedAt, fileBytesAt, hbs, hdec]
      · simp [readTextGo, hbs, hdec]
    | some c =>
      have htlfail : ∃ kv ∈ tl, decodedAt fs kv.2.path = none := by
        rcases hfail with ⟨kv, hm, hnone⟩
        rcases List.mem_cons.mp hm with heq | hmem
        · subst heq
          have hsome : decodedAt fs (k, fm).2.path = some c := by
            simp [decodedAt, fileBytesAt, hbs, hdec]
          rw [hsome] at hnone
          cases hnone
        · exact ⟨kv, hmem, hnone⟩
      obtain ⟨kv, hm, hnone, heq⟩ := ih (acc ++ [(os_relpath fm.path bp, c)])
        (fun kv hm => hopen kv (List.mem_cons_of_mem _ hm)) htlfail
      refine ⟨kv, List.mem_cons_of_mem _ hm, hnone, ?_⟩
      simpa [readTextGo, hbs, hdec] using heq

/-- **C8 counterexample**: with `ignore_errors = true` the claim says the
operation still succeeds on any per-file IO failure; but `open` stands
outside the `try`, so a record whose file is missing from disk makes the
whole call raise regardless of the flag. -/
theorem read_text_open_failure_counterexample :
    fsLookup fsEx fileC.path = none ∧
    isOkE (read_text_file_contents fsEx bundleMissing true) = false := by decide

/-- **C8 (amended)**: when every included file can be *opened*, per-file
decode failures are policy-controlled exactly as the claim says: with
`ignore_errors = true` the call succeeds and the mapping omits precisely the
undecodable files while containing every other file's decoded content; with
`ignore_errors = false` the call succeeds with all contents when everything
decodes, and otherwise fails with a generic `Exception` naming the first
undecodable file and the cause. A failure to open a file (e.g. it was
deleted from disk) propagates and fails the call regardless of
`ignore_errors`, because the `open` call stands outside the `try`. -/
theorem read_text_partial_failure (fs : FS) (b : KiaraFileBundle)
    (hopen : ∀ kv ∈ b.included_files, isFile fs kv.2.path = true) :
    (read_text_file_contents fs b true =
      .ok (skipFailed fs b.path b.included_files)) ∧
    ((∀ kv ∈ b.included_files, (decodedAt fs kv.2.path).isSome = true) →
      read_text_file_contents fs b false =
        .ok (skipFailed fs b.path b.included_files)) ∧
    ((∃ kv ∈ b.included_files, decodedAt fs kv.2.path = none) →
      ∃ kv ∈ b.included_files, decodedAt fs kv.2.path = none ∧
        read_text_file_contents fs b false =
          .error (.exception ("Can't read file (as text) '" ++ kv.2.path ++
            ": UnicodeDecodeError"))) := by
  refine ⟨?_, ?_, ?_⟩
  · simpa [read_text_file_contents] using
      readTextGo_ignore_skips fs b.path b.included_files [] hopen
  · intro hdec
    simpa [read_text_file_contents] using
      readTextGo_strict_ok fs b.path b.included_files [] hdec
  · intro hfail
    simpa [read_text_file_contents] using
      readTextGo_strict_fails fs b.path b.included_files [] hopen hfail

/-- **C8 (amended) witness**: on a bundle with one text file and one
undecodable binary file (both openable), `ignore_errors = true` returns the
mapping with only the text file. -/
theorem read_text_partial_failure_witness :
    (∀ kv ∈ bundleBad.included_files, isFile fsBad kv.2.path = true) ∧
    read_text_file_contents fsBad bundleBad true =
      .ok (skipFailed fsBad bundleBad.path bundleBad.included_files) :=
  ⟨by decide, (read_text_partial_failure fsBad bundleBad (by decide)).1⟩

/-- Unfolding step of `xnBytes`. -/
theorem xnBytes_succ (k : Nat) : xnBytes (k + 1) = 120 :: 10 :: xnBytes k := by
  simp [xnBytes, List.replicate_succ]

/-- The line split of `k` copies of `"x\n"` is `k` two-byte lines. -/
theorem linesOf_xnBytes (k : Nat) :
    linesOfBytes (xnBytes k) = List.replicate k [120, 10] := by
  induction k with
  | zero => simp [xnBytes, linesOfBytes]
  | succ k ih =>
    rw [xnBytes_succ, List.replicate_succ]
    simp [linesOfBytes, ih]

/-- One ASCII byte decodes as a leading character. -/
theorem utf8DecodeChars_ascii (b : Nat) (hb : b < 128) (rest : List Nat) :
    utf8DecodeChars (b :: rest) =
      (utf8DecodeChars rest).map (Char.ofNat b :: ·) := by
  show utf8Go 0 0 0 (b :: rest) = (utf8Go 0 0 0 rest).map (Char.ofNat b :: ·)
  conv_lhs => unfold utf8Go
  rw [if_pos hb]

/-- `k` copies of the bytes of `"x\n"` decode to `k` copies of the text. -/
theorem utf8DecodeChars_xnBytes (k : Nat) :
    utf8DecodeChars (xnBytes k) =
      some ((List.replicate k (['x', '\n'] : List Char)).flatten) := by
  induction k with
  | zero => simp [xnBytes, utf8DecodeChars, utf8Go]
  | succ k ih =>
    rw [xnBytes_succ, utf8DecodeChars_ascii 120 (by norm_num),
      utf8DecodeChars_ascii 10 (by norm_num), ih, List.replicate_succ]
    rfl

/-- String form of the previous lemma. -/
theorem utf8Decode_xnBytes (k : Nat) : utf8Decode (xnBytes k) = some (xnString k) := by
  simp [utf8Decode, utf8DecodeChars_xnBytes, xnString, List.asString]

/-- The length of `k` copies of `['x', '\n']`, flattened. -/
theorem xn_flatten_length (k : Nat) :
    ((List.replicate k (['x', '\n'] : List Char)).flatten).length = 2 * k := by
  induction k with
  | zero => simp
  | succ k ih =>
    rw [List.replicate_succ, List.flatten_cons, List.length_append, ih]
    simp
    omega

/-- The length of `k` copies of `"x\n"`. -/
theorem xnString_data_length (k : Nat) : (xnString k).data.length = 2 * k :=
  xn_flatten_length k

/-- Distinct repetition counts give distinct strings. -/
theorem xnString_ne (a b : Nat) (h : a ≠ b) : xnString a ≠ xnString b := by
  intro heq
  have := congrArg (fun s => s.data.length) heq
  simp only [xnString_data_length] at this
  omega

/-- Folding append over byte lines is flattening. -/
theorem foldr_append_flatten (ls : List (List Nat)) :
    ls.foldr (· ++ ·) [] = ls.flatten := by
  induction ls <;> simp [*]

/-- **C9**: with its default arguments (`as_str = True`, `max_lines = -1`),
`read_content` returns the empty string whatever the file's content: `-1` is
truthy, so the line-limited branch runs, and `range(-1)` yields no lines.
Passing `max_lines = 0` reads the whole file; and `0` is the only value that
uniformly does so — for every other value some decodable file is read
incompletely (or not at all). -/
theorem read_content_default (fs : FS) (self : KiaraFile) (bs : List Nat)
    (h : fsLookup fs self.path = some (.fileE bs)) :
    read_content fs self true (-1) = .ok (.pystr "") ∧
    (∀ s, utf8Decode bs = some s → read_content fs self true 0 = .ok (.pystr s)) ∧
    (∀ n : Int, n ≠ 0 →
      ∃ (fs' : FS) (self' : KiaraFile) (bs' : List Nat) (s' : String),
        fsLookup fs' self'.path = some (.fileE bs') ∧ utf8Decode bs' = some s' ∧
        read_content fs' self' true n ≠ .ok (.pystr s')) := by
  refine ⟨?_, ?_, ?_⟩
  · have h0 : utf8Decode ([] : List Nat) = some "" := rfl
    simp [read_content, h, h0]
  · intro s hs
    simp [read_content, h, hs]
  · intro n hn
    by_cases hneg : n ≤ 0
    · refine ⟨fsSingle [120], fileX, [120], "x", by decide, by decide, ?_⟩
      have htn : n.toNat = 0 := Int.toNat_eq_zero.mpr hneg
      have hlk : fsLookup (fsSingle [120]) fileX.path = some (.fileE [120]) := by decide
      have h0 : utf8Decode ([] : List Nat) = some "" := rfl
      simp [read_content, hlk, hn, htn, linesOfBytes, h0]
    · have hpos : 0 < n := by omega
      have htn : 1 ≤ n.toNat := by omega
      refine ⟨fsSingle (xnBytes (n.toNat + 1)), fileX, xnBytes (n.toNat + 1),
        xnString (n.toNat + 1), ?_, utf8Decode_xnBytes _, ?_⟩
      · simp [fsSingle, fsLookup, fileX]
      · have hlk : fsLookup (fsSingle (xnBytes (n.toNat + 1))) fileX.path =
            some (.fileE (xnBytes (n.toNat + 1))) := by
          simp [fsSingle, fsLookup, fileX]
        have hlines := linesOf_xnBytes (n.toNat + 1)
        have hle : n.toNat ≤ (linesOfBytes (xnBytes (n.toNat + 1))).length := by
          rw [hlines, List.length_replicate]
          omega
        have htake : (linesOfBytes (xnBytes (n.toNat + 1))).take n.toNat =
            List.replicate n.toNat [120, 10] := by
          rw [hlines, List.take_replicate, Nat.min_eq_left (Nat.le_succ _)]
        have hflat : (List.replicate n.toNat ([120, 10] : List Nat)).foldr (· ++ ·) [] =
            xnBytes n.toNat := by
          rw [foldr_append_flatten]; rfl
        simp only [read_content, hlk, if_neg hn, hle, if_pos, if_true, htake, hflat,
          utf8Decode_xnBytes]
        intro hcontra
        have : xnString n.toNat = xnString (n.toNat + 1) := by
          simpa using hcontra
        exact xnString_ne n.toNat (n.toNat + 1) (by omega) this

/-- **C9 witness**: on the one-line file `"x\n"`, the default call returns
`""` and the `max_lines = 0` call returns the whole content. -/
theorem read_content_default_witness :
    read_content (fsSingle [120, 10]) fileX true (-1) = .ok (.pystr "") ∧
    read_content (fsSingle [120, 10]) fileX true 0 = .ok (.pystr "x\n") := by
  have hmain := read_content_default (fsSingle [120, 10]) fileX [120, 10] (by decide)
  exact ⟨hmain.1, hmain.2.1 "x\n" (by decide)⟩

/-- A key has a binding iff it occurs among the keys. -/
theorem lookupKey_isSome {α : Type} (k : String) (l : List (String × α)) :
    (lookupKey k l).isSome = true ↔ k ∈ keysOf l := by
  induction l with
  | nil => simp [lookupKey, keysOf]
  | cons hd tl ih =>
    obtain ⟨q, v⟩ := hd
    by_cases hq : q = k
    · subst hq; simp [lookupKey, keysOf]
    · simp only [lookupKey, if_neg hq, keysOf, List.map_cons, List.mem_cons]
      rw [ih]
      constructor
      · intro h; exact Or.inr (by simpa [keysOf] using h)
      · rintro (h | h)
        · exact absurd h.symm hq
        · simpa [keysOf] using h

/-- A successful lookup is a member. -/
theorem lookupKey_mem {α : Type} {k : String} {v : α} :
    ∀ {l : List (String × α)}, lookupKey k l = some v → (k, v) ∈ l := by
  intro l
  induction l with
  | nil => intro h; cases h
  | cons hd tl ih =>
    obtain ⟨q, w⟩ := hd
    intro h
    by_cases hq : q = k
    · subst hq
      rw [show lookupKey q ((q, w) :: tl) = some w from by simp [lookupKey]] at h
      cases h
      exact List.mem_cons_self _ _
    · rw [lookupKey, if_neg hq] at h
      exact List.mem_cons_of_mem _ (ih h)

/-- Under unique keys, membership determines the lookup. -/
theorem mem_lookupKey_of_nodup {α : Type} :
    ∀ {l : List (String × α)}, (keysOf l).Nodup →
      ∀ {k : String} {v : α}, (k, v) ∈ l → lookupKey k l = some v := by
  intro l
  induction l with
  | nil => intro _ k v h; cases h
  | cons hd tl ih =>
    obtain ⟨q, w⟩ := hd
    intro hn k v h
    have hn' : (keysOf tl).Nodup ∧ q ∉ keysOf tl := by
      have := hn
      simp only [keysOf, List.map_cons, List.nodup_cons] at this
      exact ⟨this.2, this.1⟩
    rcases List.mem_cons.mp h with heq | hmem
    · obtain ⟨hk, hv⟩ := Prod.mk.injEq .. ▸ heq
      subst hk; subst hv
      simp [lookupKey]
    · by_cases hq : q = k
      · subst hq
        exact absurd ((lookupKey_isSome q tl).mp
          (by rw [ih hn'.1 hmem]; rfl)) hn'.2
      · rw [lookupKey, if_neg hq]
        exact ih hn'.1 hmem

/-- `bundleHashPairs` keeps the keys, in order. -/
theorem bundleHashPairs_keys (fs : FS) :
    ∀ {files : List (String × KiaraFile)} {ps : List (String × String)},
      bundleHashPairs fs files = .ok ps → keysOf ps = keysOf files := by
  intro files
  induction files with
  | nil => intro ps h; cases h; rfl
  | cons hd tl ih =>
    intro ps h
    unfold bundleHashPairs at h
    cases hh : file_hash fs hd.2 with
    | error e => rw [hh] at h; cases h
    | ok h0 =>
      rw [hh] at h
      cases hps : bundleHashPairs fs tl with
      | error e => rw [hps] at h; cases h
      | ok ps' =>
        rw [hps] at h
        cases h
        simpa [keysOf] using ih hps

/-- The realized pair of a looked-up record: the lookup in the pair list
succeeds at the same (first) position and carries that record's
`file_hash`. -/
theorem bundleHashPairs_lookup (fs : FS) :
    ∀ {files : List (String × KiaraFile)} {ps : List (String × String)}
      {k : String} {fm : KiaraFile},
      bundleHashPairs fs files = .ok ps → lookupKey k files = some fm →
      ∃ h, lookupKey k ps = some h ∧ file_hash fs fm = .ok h := by
  intro files
  induction files with
  | nil => intro ps k fm _ hl; cases hl
  | cons hd tl ih =>
    obtain ⟨q, f⟩ := hd
    intro ps k fm hp hl
    unfold bundleHashPairs at hp
    cases hh : file_hash fs f with
    | error e => rw [hh] at hp; cases hp
    | ok h0 =>
      rw [hh] at hp
      cases hps : bundleHashPairs fs tl with
      | error e => rw [hps] at hp; cases hp
      | ok ps' =>
        rw [hps] at hp
        cases hp
        by_cases hq : q = k
        · subst hq
          rw [lookupKey, if_pos rfl] at hl
          cases hl
          exact ⟨h0, by simp [lookupKey], hh⟩
        · rw [lookupKey, if_neg hq] at hl
          obtain ⟨h1, hlp, hfh⟩ := ih hps hl
          exact ⟨h1, by rw [lookupKey, if_neg hq]; exact hlp, hfh⟩

/-- The accumulator loop of `file_bundle_hash`, rephrased over the realized
pairs: it folds the pieces of the visited keys onto the accumulator. -/
theorem hashesGo_eq (fs : FS) (files : List (String × KiaraFile))
    (ps : List (String × String)) (hp : bundleHashPairs fs files = .ok ps) :
    ∀ (ks : List String) (acc : String),
      (∀ k ∈ ks, (lookupKey k files).isSome = true) →
      hashesGo fs files ks acc =
        .ok (ks.foldl (fun a k => a ++ "_" ++ k ++ "_" ++ (lookupKey k ps).getD "") acc) := by
  intro ks
  induction ks with
  | nil => intro acc _; simp [hashesGo]
  | cons k ks ih =>
    intro acc hmem
    obtain ⟨fm, hfm⟩ := Option.isSome_iff_exists.mp (hmem k (List.mem_cons_self _ _))
    obtain ⟨h, hps, hfh⟩ := bundleHashPairs_lookup fs hp hfm
    rw [List.foldl_cons]
    have hstep : hashesGo fs files (k :: ks) acc =
        hashesGo fs files ks (acc ++ "_" ++ k ++ "_" ++ h) := by
      conv_lhs => unfold hashesGo
      rw [hfm]
      dsimp only
      rw [hfh]
    rw [hstep]
    rw [ih (acc ++ "_" ++ k ++ "_" ++ h)
      (fun k' hk' => hmem k' (List.mem_cons_of_mem _ hk'))]
    rw [hps]
    rfl

/-- Sorting is invariant under permutation of the input. -/
theorem sortStrings_eq_of_perm {l1 l2 : List String} (h : l1.Perm l2) :
    sortStrings l1 = sortStrings l2 :=
  List.eq_of_perm_of_sorted
    ((List.perm_insertionSort _ l1).trans (h.trans (List.perm_insertionSort _ l2).symm))
    (List.sorted_insertionSort _ l1) (List.sorted_insertionSort _ l2)

/-- **C1**: the bundle hash is deterministic in the mapping contents: two
(uncached) bundles whose `included_files` realize exactly the same set of
`(relative path, content hash)` pairs — in whatever insertion or traversal
order — have equal `bundle_hash` results. -/
theorem bundle_hash_deterministic (fs : FS) (b1 b2 : KiaraFileBundle)
    (ps1 ps2 : List (String × String))
    (hc1 : b1.fileBundleHashCache = none) (hc2 : b2.fileBundleHashCache = none)
    (hn1 : (keysOf b1.included_files).Nodup)
    (hn2 : (keysOf b2.included_files).Nodup)
    (hp1 : bundleHashPairs fs b1.included_files = .ok ps1)
    (hp2 : bundleHashPairs fs b2.included_files = .ok ps2)
    (h12 : ∀ kv ∈ ps1, kv ∈ ps2) (h21 : ∀ kv ∈ ps2, kv ∈ ps1) :
    file_bundle_hash fs b1 = file_bundle_hash fs b2 := by
  have hk1 : keysOf ps1 = keysOf b1.included_files := bundleHashPairs_keys fs hp1
  have hk2 : keysOf ps2 = keysOf b2.included_files := bundleHashPairs_keys fs hp2
  have hnp1 : (keysOf ps1).Nodup := hk1 ▸ hn1
  have hnp2 : (keysOf ps2).Nodup := hk2 ▸ hn2
  have hperm : ps1.Perm ps2 :=
    (List.perm_ext_iff_of_nodup (hnp1.of_map _) (hnp2.of_map _)).mpr
      (fun kv => ⟨h12 kv, h21 kv⟩)
  have hkperm : (keysOf b1.included_files).Perm (keysOf b2.included_files) := by
    rw [← hk1, ← hk2]; exact hperm.map Prod.fst
  have hsort : sortStrings (keysOf b1.included_files) =
      sortStrings (keysOf b2.included_files) := sortStrings_eq_of_perm hkperm
  have hlook : ∀ k, lookupKey k ps1 = lookupKey k ps2 := by
    intro k
    cases hv : lookupKey k ps1 with
    | some v =>
      exact (mem_lookupKey_of_nodup hnp2 (h12 _ (lookupKey_mem hv))).symm
    | none =>
      cases hv2 : lookupKey k ps2 with
      | none => rfl
      | some w =>
        have := mem_lookupKey_of_nodup hnp1 (h21 _ (lookupKey_mem hv2))
        rw [hv] at this
        cases this
  have hmem1 : ∀ k ∈ sortStrings (keysOf b1.included_files),
      (lookupKey k b1.included_files).isSome = true := fun k hk =>
    (lookupKey_isSome k _).mpr ((List.perm_insertionSort _ _).mem_iff.mp hk)
  have hmem2 : ∀ k ∈ sortStrings (keysOf b2.included_files),
      (lookupKey k b2.included_files).isSome = true := fun k hk =>
    (lookupKey_isSome k _).mpr ((List.perm_insertionSort _ _).mem_iff.mp hk)
  unfold file_bundle_hash
  rw [hc1, hc2,
    hashesGo_eq fs b1.included_files ps1 hp1 _ "" hmem1,
    hashesGo_eq fs b2.included_files ps2 hp2 _ "" hmem2,
    hsort]
  have hfun : (fun (a : String) k => a ++ "_" ++ k ++ "_" ++ (lookupKey k ps1).getD "") =
      (fun (a : String) k => a ++ "_" ++ k ++ "_" ++ (lookupKey k ps2).getD "") := by
    funext a k
    rw [hlook k]
  rw [hfun]

/-- **C1 witness**: the same two (path, hash) pairs inserted in opposite
orders hash identically. -/
theorem bundle_hash_deterministic_witness :
    file_bundle_hash fsEx bundleP = file_bundle_hash fsEx bundleQ :=
  bundle_hash_deterministic fsEx bundleP bundleQ
    [("a.txt", "ha"), ("b.txt", "hb")] [("b.txt", "hb"), ("a.txt", "ha")]
    rfl rfl (by decide) (by decide) (by decide) (by decide) (by decide) (by decide)

/-- The accumulator loop equals the map-and-concatenate of the spec's
formula, piece by piece. -/
theorem hashesGo_eq_specPieces (fs : FS) (files : List (String × KiaraFile)) :
    ∀ (ks : List String) (acc : String),
      hashesGo fs files ks acc =
        (specPieces fs files ks).map (fun ps => acc ++ concatStrings ps) := by
  intro ks
  induction ks with
  | nil =>
    intro acc
    simp [hashesGo, specPieces, concatStrings, Except.map]
  | cons k ks ih =>
    intro acc
    unfold hashesGo specPieces
    cases hl : lookupKey k files with
    | none => simp [Except.map]
    | some fm =>
      dsimp only
      cases hh : file_hash fs fm with
      | error e => simp [Except.map]
      | ok h =>
        dsimp only
        rw [ih (acc ++ "_" ++ k ++ "_" ++ h)]
        cases hps : specPieces fs files ks with
        | error e => simp [Except.map]
        | ok ps => simp [Except.map, concatStrings, String.append_assoc]

/-- **C2**: for an uncached bundle, the `bundle_hash` accessor returns
exactly the digest the spec describes: SHA3-256 of the UTF-8 encoding of the
concatenation, over the keys of `included_files` in ascending lexicographic
order, of the literal pieces `"_" + key + "_" + content_hash`. -/
theorem bundle_hash_matches_spec (fs : FS) (b : KiaraFileBundle)
    (hc : b.fileBundleHashCache = none) :
    file_bundle_hash fs b = bundle_hash_spec fs b := by
  unfold file_bundle_hash bundle_hash_spec
  rw [hc, hashesGo_eq_specPieces fs b.included_files
    (sortStrings (keysOf b.included_files)) ""]
  cases hps : specPieces fs b.included_files (sortStrings (keysOf b.included_files)) with
  | error e => rfl
  | ok ps => simp [Except.map]

/-- **C2 witness**: an uncached two-file bundle hashes to the spec's
formula. -/
theorem bundle_hash_matches_spec_witness :
    bundleP.fileBundleHashCache = none ∧
    file_bundle_hash fsEx bundleP = bundle_hash_spec fsEx bundleP :=
  ⟨rfl, bundle_hash_matches_spec fsEx bundleP rfl⟩

end KiaraCore
